import Mathlib

/-!
Verification of the xb slide-report generator (generate_all.py,
generate_xibao.py, generate_with_images.py) against its specification.

The three Python files contain textually identical copies of the core
functions verified here (`replace_placeholders_in_paragraph`,
`detect_template_type`, `group_data_for_zhanbao`, `get_date_range`, the
replacement-map construction of `process_individual_template` /
`generate_xibao`).  Each definition below is a shallow embedding of the
corresponding Python function:

  * a paragraph is modelled by the list of its runs' texts
    (`List String`) — formatting is irrelevant to the text rewriting;
  * a data record (CSV row) is an association list from column name to
    string value (`Row`); `row.get(c, d)` is `rowGet`, `row[c]` is the
    `Option`-valued `rowLookup` (a `KeyError` is modelled by `none`);
  * Python `dict` key maps are association lists in insertion order,
    membership test and `dict[k]` are `kmLookup`;
  * Python machine floats are idealised as `ℚ`; `float(s)` is modelled
    by `parseFloat` for decimal/scientific literals (ASCII digits; the
    special values inf/nan and underscore separators do not occur in
    this data and are out of the model);
  * `str.replace(pat, rep)` (all non-overlapping occurrences, left to
    right) is `strReplaceAll`; `needle in haystack` is `strContains`.

Literal brace characters in strings are written with the escapes
\x7b (left brace) and \x7d (right brace).
-/

namespace Xb

/-- Boolean test that `p` is a prefix of `s` (character lists). -/
def startsWithL : List Char → List Char → Bool
  | [], _ => true
  | _ :: _, [] => false
  | a :: as, b :: bs => a == b && startsWithL as bs

/-- Python `needle in haystack` on the underlying character list:
`containsL needle hay` is true iff `needle` occurs contiguously in `hay`. -/
def containsL (needle : List Char) : List Char → Bool
  | [] => needle.isEmpty
  | c :: rest => startsWithL needle (c :: rest) || containsL needle rest

/-- Python `needle in haystack` for strings. -/
def strContains (hay needle : String) : Bool :=
  containsL needle.data hay.data

/-- Replace all non-overlapping occurrences of `pat` in `s` by `rep`,
scanning left to right, exactly as Python `str.replace`.  The fuel
argument is an upper bound on the number of steps; every step consumes
at least one character of `s` when `pat` is nonempty, so fuel `s.length`
is always sufficient (when the fuel runs out `s` is already empty).
Python's special behaviour for an empty `pat` is not modelled; every
pattern used by the program (`"\x7b\x7b"`, `"\x7d\x7d"`, `","`, `"万"`)
is nonempty. -/
def replaceAllAux (pat rep : List Char) : ℕ → List Char → List Char
  | 0, s => s
  | fuel + 1, s =>
    if pat.isEmpty then s
    else if startsWithL pat s then rep ++ replaceAllAux pat rep fuel (s.drop pat.length)
    else
      match s with
      | [] => []
      | c :: rest => c :: replaceAllAux pat rep fuel rest

/-- Python `s.replace(pat, rep)`. -/
def strReplaceAll (s pat rep : String) : String :=
  String.mk (replaceAllAux pat.data rep.data s.data.length s.data)

/-- Membership / lookup in a Python dict modelled as an association
list: `kmLookup km k = some v` iff `k in km` with `km[k] = v`. -/
def kmLookup (km : List (String × String)) (k : String) : Option String :=
  (km.find? (fun p => decide (p.1 = k))).map (fun p => p.2)

/-- The text of run `i`, i.e. Python `runs[i].text`; total, with the
empty string at out-of-range indices (the program only reads in-range
indices, guarded by `i < len(runs)` checks). -/
def getText : List String → ℕ → String
  | [], _ => ""
  | t :: _, 0 => t
  | _ :: rest, n + 1 => getText rest n

/-- Mode 2 of `replace_placeholders_in_paragraph`: for each `(key, value)`
of the map in insertion order, if `"\x7b\x7bkey\x7d\x7d"` occurs in the
current text, replace every occurrence by `value` (the Python loop
re-reads `runs[i].text` after each key, hence the accumulator). -/
def pattern2 : List (String × String) → String → String
  | [], t => t
  | kv :: rest, t =>
    let ph := "\x7b\x7b" ++ kv.1 ++ "\x7d\x7d"
    pattern2 rest (if strContains t ph then strReplaceAll t ph kv.2 else t)

/-- The guard of mode 1 (the three-run split) of
`replace_placeholders_in_paragraph`: run `i` contains `"\x7b\x7b"`,
`i + 2 < len(runs)`, run `i+1` is literally a key of the map, and run
`i+2` contains `"\x7d\x7d"`. -/
def tripleMatch (km : List (String × String)) (runs : List String) (i : ℕ) : Bool :=
  strContains (getText runs i) "\x7b\x7b" && decide (i + 2 < runs.length)
    && (kmLookup km (getText runs (i + 1))).isSome
    && strContains (getText runs (i + 2)) "\x7d\x7d"

/-- One iteration of the while loop of
`replace_placeholders_in_paragraph`: returns the updated run texts and
the next scan index.  On a triple match the `"\x7b\x7b"` markers are
stripped from run `i`, run `i+1` becomes the mapped value, the
`"\x7d\x7d"` markers are stripped from run `i+2`, and the index advances
by 2 (the Python `i += 2; continue`); otherwise mode 2 rewrites run `i`
and the index advances by 1. -/
def loopStep (km : List (String × String)) (runs : List String) (i : ℕ) :
    List String × ℕ :=
  if tripleMatch km runs i then
    (List.set
        (List.set
          (List.set runs i (strReplaceAll (getText runs i) "\x7b\x7b" ""))
          (i + 1) ((kmLookup km (getText runs (i + 1))).getD ""))
        (i + 2) (strReplaceAll (getText runs (i + 2)) "\x7d\x7d" ""),
      i + 2)
  else
    (List.set runs i (pattern2 km (getText runs i)), i + 1)

/-- The while loop `while i < len(runs)` of
`replace_placeholders_in_paragraph`, with a step-count fuel.  Each
iteration strictly increases `i` while `len(runs)` stays fixed, so fuel
`runs.length + 1 - i` is always sufficient (`replaceLoopAux_fuel_eq`
below makes the fuel irrelevance precise). -/
def replaceLoopAux (km : List (String × String)) : ℕ → List String → ℕ → List String
  | 0, runs, _ => runs
  | fuel + 1, runs, i =>
    if i < runs.length then
      replaceLoopAux km fuel (loopStep km runs i).1 (loopStep km runs i).2
    else runs

/-- The while loop of `replace_placeholders_in_paragraph` started at
index `i`. -/
def replaceLoop (km : List (String × String)) (runs : List String) (i : ℕ) :
    List String :=
  replaceLoopAux km (runs.length + 1 - i) runs i

/-- `replace_placeholders_in_paragraph(paragraph, key_map)` — the run
texts after the in-place rewriting. -/
def replace_placeholders_in_paragraph (runs : List String)
    (km : List (String × String)) : List String :=
  replaceLoop km runs 0

theorem loopStep_length (km : List (String × String)) (runs : List String) (i : ℕ) :
    (loopStep km runs i).1.length = runs.length := by
  by_cases h : tripleMatch km runs i <;> simp [loopStep, h]

theorem loopStep_snd (km : List (String × String)) (runs : List String) (i : ℕ) :
    (loopStep km runs i).2 = if tripleMatch km runs i then i + 2 else i + 1 := by
  by_cases h : tripleMatch km runs i <;> simp [loopStep, h]

theorem loopStep_snd_ge (km : List (String × String)) (runs : List String) (i : ℕ) :
    i + 1 ≤ (loopStep km runs i).2 := by
  rw [loopStep_snd]; split <;> omega

theorem replaceLoopAux_stop (km : List (String × String)) (fuel : ℕ)
    (runs : List String) (i : ℕ) (h : runs.length ≤ i) :
    replaceLoopAux km fuel runs i = runs := by
  cases fuel with
  | zero => rfl
  | succ f => simp [replaceLoopAux, Nat.not_lt.mpr h]

theorem replaceLoopAux_fuel_eq (km : List (String × String)) :
    ∀ f1 f2 (runs : List String) (i : ℕ),
      runs.length ≤ i + f1 → runs.length ≤ i + f2 →
      replaceLoopAux km f1 runs i = replaceLoopAux km f2 runs i := by
  intro f1
  induction f1 with
  | zero =>
    intro f2 runs i h1 h2
    rw [replaceLoopAux_stop km 0 runs i (by omega),
      replaceLoopAux_stop km f2 runs i (by omega)]
  | succ f ih =>
    intro f2 runs i h1 h2
    by_cases hlt : i < runs.length
    · cases f2 with
      | zero => omega
      | succ g =>
        simp only [replaceLoopAux, if_pos hlt]
        apply ih
        · have hl := loopStep_length km runs i
          have hs := loopStep_snd_ge km runs i
          omega
        · have hl := loopStep_length km runs i
          have hs := loopStep_snd_ge km runs i
          omega
    · rw [replaceLoopAux_stop km _ runs i (by omega),
        replaceLoopAux_stop km f2 runs i (by omega)]

/-- Unfolding the while loop by one iteration when `i` is in range. -/
theorem replaceLoop_step (km : List (String × String)) (runs : List String)
    (i : ℕ) (h : i < runs.length) :
    replaceLoop km runs i =
      replaceLoop km (loopStep km runs i).1 (loopStep km runs i).2 := by
  have hl := loopStep_length km runs i
  have hs := loopStep_snd_ge km runs i
  have hfuel : runs.length + 1 - i = (runs.length - i) + 1 := by omega
  unfold replaceLoop
  rw [hfuel]
  simp only [replaceLoopAux, if_pos h]
  apply replaceLoopAux_fuel_eq <;> omega

theorem getText_mem : ∀ (l : List String) (i : ℕ), i < l.length → getText l i ∈ l := by
  intro l
  induction l with
  | nil => intro i h; simp at h
  | cons a t ih =>
    intro i h
    cases i with
    | zero => exact List.mem_cons_self a t
    | succ j =>
      exact List.mem_cons_of_mem a (ih j (by simpa using h))

theorem set_getText_self : ∀ (l : List String) (i : ℕ),
    List.set l i (getText l i) = l := by
  intro l
  induction l with
  | nil => intro i; rfl
  | cons a t ih =>
    intro i
    cases i with
    | zero => rfl
    | succ j => exact congrArg (List.cons a) (ih j)

theorem pattern2_id (km : List (String × String)) (t : String)
    (h : ∀ kv ∈ km, strContains t ("\x7b\x7b" ++ kv.1 ++ "\x7d\x7d") = false) :
    pattern2 km t = t := by
  induction km with
  | nil => rfl
  | cons kv rest ih =>
    have hkv := h kv (List.mem_cons_self kv rest)
    simp only [pattern2, hkv, Bool.false_eq_true, if_false]
    exact ih (fun kv' hkv' => h kv' (List.mem_cons_of_mem kv hkv'))

theorem replaceLoopAux_noop (km : List (String × String)) (runs : List String)
    (h : ∀ t ∈ runs,
      (∀ kv ∈ km, strContains t ("\x7b\x7b" ++ kv.1 ++ "\x7d\x7d") = false) ∧
      kmLookup km t = none) :
    ∀ fuel i, replaceLoopAux km fuel runs i = runs := by
  intro fuel
  induction fuel with
  | zero => intro i; rfl
  | succ f ih =>
    intro i
    by_cases hlt : i < runs.length
    · have hmem : getText runs i ∈ runs := getText_mem runs i hlt
      have htm : tripleMatch km runs i = false := by
        by_cases h2 : i + 2 < runs.length
        · have hm1 : getText runs (i + 1) ∈ runs := getText_mem runs (i + 1) (by omega)
          have hnone := (h _ hm1).2
          simp [tripleMatch, h2, hnone]
        · simp [tripleMatch, h2]
      have hp2 : pattern2 km (getText runs i) = getText runs i :=
        pattern2_id km _ (h _ hmem).1
      simp only [replaceLoopAux, if_pos hlt, loopStep, htm, Bool.false_eq_true,
        if_false, hp2, set_getText_self]
      exact ih (i + 1)
    · exact replaceLoopAux_stop km _ runs i (by omega)

/-- Claim C2: whenever three consecutive runs at positions `i`, `i+1`,
`i+2` satisfy: run `i` contains `"\x7b\x7b"`, run `i+1` equals a key of the
map, and run `i+2` contains `"\x7d\x7d"`, the scan strips only the
`"\x7b\x7b"`/`"\x7d\x7d"` markers (the remaining text of the first and
third run is preserved in place), sets the middle run's text to the
mapped value, and resumes at the third run (index `i+2`), so that a
subsequent `"\x7b\x7b"` remaining there can start the next match. -/
theorem claim_C2 (km : List (String × String)) (runs : List String) (i : ℕ)
    (v : String)
    (h1 : strContains (getText runs i) "\x7b\x7b" = true)
    (h2 : i + 2 < runs.length)
    (h3 : kmLookup km (getText runs (i + 1)) = some v)
    (h4 : strContains (getText runs (i + 2)) "\x7d\x7d" = true) :
    replaceLoop km runs i =
      replaceLoop km
        (List.set
          (List.set
            (List.set runs i (strReplaceAll (getText runs i) "\x7b\x7b" ""))
            (i + 1) v)
          (i + 2) (strReplaceAll (getText runs (i + 2)) "\x7d\x7d" ""))
        (i + 2) := by
  have htm : tripleMatch km runs i = true := by
    simp [tripleMatch, h1, h2, h3, h4]
  have hstep : loopStep km runs i =
      (List.set
          (List.set
            (List.set runs i (strReplaceAll (getText runs i) "\x7b\x7b" ""))
            (i + 1) v)
          (i + 2) (strReplaceAll (getText runs (i + 2)) "\x7d\x7d" ""),
        i + 2) := by
    simp [loopStep, htm, h3]
  rw [replaceLoop_step km runs i (by omega), hstep]

/-- Claim C2, witness: a concrete triple-split token
`["a\x7b\x7b", "k", "\x7d\x7db"]` with the map `[("k", "V")]`. -/
theorem claim_C2_witness :
    replaceLoop [("k", "V")] ["a\x7b\x7b", "k", "\x7d\x7db", "r"] 0 =
      replaceLoop [("k", "V")]
        (List.set
          (List.set
            (List.set ["a\x7b\x7b", "k", "\x7d\x7db", "r"] 0
              (strReplaceAll (getText ["a\x7b\x7b", "k", "\x7d\x7db", "r"] 0) "\x7b\x7b" ""))
            1 "V")
          2 (strReplaceAll (getText ["a\x7b\x7b", "k", "\x7d\x7db", "r"] 2) "\x7d\x7d" ""))
        2 :=
  claim_C2 [("k", "V")] ["a\x7b\x7b", "k", "\x7d\x7db", "r"] 0 "V"
    (by decide) (by decide) (by decide) (by decide)

/-- Claim C8: a paragraph in which no run's text contains
`"\x7b\x7bk\x7d\x7d"` for any key `k` of the map and no run's entire text
equals a key is left unchanged by `replace_placeholders_in_paragraph`
(substitution is a no-op for unknown keys). -/
theorem claim_C8 (runs : List String) (km : List (String × String))
    (h : ∀ t ∈ runs,
      (∀ kv ∈ km, strContains t ("\x7b\x7b" ++ kv.1 ++ "\x7d\x7d") = false) ∧
      kmLookup km t = none) :
    replace_placeholders_in_paragraph runs km = runs :=
  replaceLoopAux_noop km runs h (runs.length + 1 - 0) 0

/-- Claim C8, witness: a run holding the literal text
`"\x7b\x7bbranch\x7d\x7d"` with a key map that has no key `"branch"` is
left exactly as it was. -/
theorem claim_C8_witness :
    replace_placeholders_in_paragraph ["\x7b\x7bbranch\x7d\x7d"]
        [("分行名称", "北京分行")] = ["\x7b\x7bbranch\x7d\x7d"] :=
  claim_C8 ["\x7b\x7bbranch\x7d\x7d"] [("分行名称", "北京分行")] (by decide)

/-- Claim C10: each iteration of the while loop of
`replace_placeholders_in_paragraph` keeps the run-list length fixed and
strictly increases the scan index — by 2 exactly when the three-run
pattern matches and by 1 otherwise — so the measure
`runs.length - i` strictly decreases and the loop always ends. -/
theorem claim_C10 (km : List (String × String)) (runs : List String) (i : ℕ)
    (h : i < runs.length) :
    (loopStep km runs i).1.length = runs.length ∧
    (loopStep km runs i).2 = (if tripleMatch km runs i then i + 2 else i + 1) ∧
    i < (loopStep km runs i).2 ∧
    (loopStep km runs i).1.length - (loopStep km runs i).2 < runs.length - i := by
  refine ⟨loopStep_length km runs i, loopStep_snd km runs i, ?_, ?_⟩
  · have := loopStep_snd_ge km runs i; omega
  · have h1 := loopStep_length km runs i
    have h2 := loopStep_snd_ge km runs i
    omega

/-- Claim C10, witness: one loop iteration on the one-run paragraph
`["a"]` with an empty key map. -/
theorem claim_C10_witness :
    (0 : ℕ) < (["a"] : List String).length ∧
    ((loopStep [] ["a"] 0).1.length = (["a"] : List String).length ∧
      (loopStep [] ["a"] 0).2 = (if tripleMatch [] ["a"] 0 then 0 + 2 else 0 + 1) ∧
      0 < (loopStep [] ["a"] 0).2 ∧
      (loopStep [] ["a"] 0).1.length - (loopStep [] ["a"] 0).2 <
        (["a"] : List String).length - 0) :=
  ⟨by decide, claim_C10 [] ["a"] 0 (by decide)⟩

/-- A data record: one CSV/XLSX row as an association list from column
name to string value. -/
abbrev Row := List (String × String)

/-- Python `row[col]` — `none` models the `KeyError` raised on a
missing column. -/
def rowLookup (row : Row) (col : String) : Option String :=
  (row.find? (fun p => decide (p.1 = col))).map (fun p => p.2)

/-- Python `row.get(col, dflt)`. -/
def rowGet (row : Row) (col dflt : String) : String :=
  (rowLookup row col).getD dflt

/-- Whitespace, as stripped by Python `str.strip()` / split by
`str.split()` (the ASCII whitespace actually occurring in the data). -/
def isWs (c : Char) : Bool := c == ' ' || c == '\t' || c == '\n' || c == '\r'

/-- Python `s.strip()` on a character list. -/
def stripWs (s : List Char) : List Char :=
  ((s.dropWhile isWs).reverse.dropWhile isWs).reverse

/-- Numeric value of a string of decimal digits. -/
def digitsVal (ds : List Char) : ℕ :=
  ds.foldl (fun n c => 10 * n + (c.toNat - 48)) 0

/-- The exponent part after `e`/`E` in a float literal: an optional
sign followed by at least one digit, consuming the whole rest. -/
def parseExpPart : List Char → Option ℤ
  | [] => none
  | '+' :: r => if !r.isEmpty && r.all Char.isDigit then some (digitsVal r : ℤ) else none
  | '-' :: r => if !r.isEmpty && r.all Char.isDigit then some (-(digitsVal r : ℤ)) else none
  | r => if r.all Char.isDigit then some (digitsVal r : ℤ) else none

/-- Unsigned part of a Python `float(s)` literal: digits, an optional
`.` with optional further digits (at least one digit overall), and an
optional exponent; anything left over fails the parse. -/
def parseFloatCore (t : List Char) : Option ℚ :=
  let ip := t.takeWhile Char.isDigit
  let r1 := t.dropWhile Char.isDigit
  let hasDot : Bool := match r1 with | '.' :: _ => true | _ => false
  let afterDot := match r1 with | '.' :: r => r | r => r
  let fp := if hasDot then afterDot.takeWhile Char.isDigit else []
  let r2 := if hasDot then afterDot.dropWhile Char.isDigit else r1
  if ip.isEmpty && fp.isEmpty then none
  else
    let mant : ℚ :=
      if fp.isEmpty then (digitsVal ip : ℚ)
      else (digitsVal ip : ℚ) + (digitsVal fp : ℚ) / (10 : ℚ) ^ fp.length
    match r2 with
    | [] => some mant
    | 'e' :: r => (parseExpPart r).map (fun e => mant * (10 : ℚ) ^ e)
    | 'E' :: r => (parseExpPart r).map (fun e => mant * (10 : ℚ) ^ e)
    | _ => none

/-- Python `float(s)`: surrounding whitespace stripped, an optional
sign, then a decimal/scientific literal; `none` models the
`ValueError` on failure. -/
def parseFloat (s : String) : Option ℚ :=
  match stripWs s.data with
  | [] => none
  | '+' :: r => parseFloatCore r
  | '-' :: r => (parseFloatCore r).map (fun q => -q)
  | r => parseFloatCore r

/-- Python `s.replace(",", "")` applied to a sale amount before
parsing. -/
def stripCommas (s : String) : String := strReplaceAll s "," ""

/-- The group key of `group_data_for_zhanbao`:
`(row.get("分行名称", ""), row.get("基金产品名称", ""))`. -/
def keyOf (row : Row) : String × String :=
  (rowGet row "分行名称" "", rowGet row "基金产品名称" "")

/-- The sale-amount string of a record with commas stripped:
`row.get("销售额", "0").replace(",", "")`. -/
def amountStrOf (row : Row) : String := stripCommas (rowGet row "销售额" "0")

/-- The amount a record contributes: `float(...)` of its sale-amount
string, and `0` when that raises `ValueError` (the `except` branch). -/
def amountOf (row : Row) : ℚ := (parseFloat (amountStrOf row)).getD 0

/-- `groups[key] += amt` on a `defaultdict(float)` modelled as an
association list in key insertion order (Python dicts preserve
insertion order; an absent key reads as `0.0`). -/
def bumpGroup (key : String × String) (amt : ℚ) :
    List ((String × String) × ℚ) → List ((String × String) × ℚ)
  | [] => [(key, amt)]
  | p :: rest =>
    if p.1 = key then (p.1, p.2 + amt) :: rest else p :: bumpGroup key amt rest

/-- One iteration of the grouping loop of `group_data_for_zhanbao`. -/
def groupsStep (g : List ((String × String) × ℚ)) (row : Row) :
    List ((String × String) × ℚ) :=
  bumpGroup (keyOf row) (amountOf row) g

/-- The `groups` dict of `group_data_for_zhanbao` after folding in all
records. -/
def groupsOf (rows : List Row) : List ((String × String) × ℚ) :=
  rows.foldl groupsStep []

/-- Read a group's running total, `0` for an absent key (the
`defaultdict(float)` default). -/
def lookupGroup (g : List ((String × String) × ℚ)) (k : String × String) : ℚ :=
  match g.find? (fun p => decide (p.1 = k)) with
  | some p => p.2
  | none => 0

theorem lookupGroup_nil (k : String × String) : lookupGroup [] k = 0 := rfl

theorem lookupGroup_cons (p : (String × String) × ℚ)
    (rest : List ((String × String) × ℚ)) (k : String × String) :
    lookupGroup (p :: rest) k = if p.1 = k then p.2 else lookupGroup rest k := by
  by_cases h : p.1 = k
  · rw [if_pos h]
    unfold lookupGroup
    rw [List.find?_cons_of_pos _ (by simpa using h)]
  · rw [if_neg h]
    unfold lookupGroup
    rw [List.find?_cons_of_neg _ (by simpa using h)]

theorem lookupGroup_bumpGroup (key : String × String) (a : ℚ) :
    ∀ (g : List ((String × String) × ℚ)) (k : String × String),
      lookupGroup (bumpGroup key a g) k =
        lookupGroup g k + (if k = key then a else 0) := by
  intro g
  induction g with
  | nil =>
    intro k
    simp only [bumpGroup]
    rw [lookupGroup_cons]
    by_cases hk : k = key
    · rw [if_pos hk.symm, if_pos hk]
      show a = 0 + a
      rw [zero_add]
    · rw [if_neg (fun h => hk h.symm), if_neg hk]
      show (0 : ℚ) = 0 + 0
      rw [add_zero]
  | cons p rest ih =>
    intro k
    simp only [bumpGroup]
    by_cases h1 : p.1 = key
    · rw [if_pos h1, lookupGroup_cons, lookupGroup_cons]
      by_cases h2 : p.1 = k
      · rw [if_pos h2, if_pos h2, if_pos (show k = key by rw [← h2, h1])]
      · rw [if_neg h2, if_neg h2,
          if_neg (show ¬k = key by intro hk; exact h2 (by rw [h1, hk])), add_zero]
    · rw [if_neg h1, lookupGroup_cons, lookupGroup_cons]
      by_cases h2 : p.1 = k
      · rw [if_pos h2, if_pos h2,
          if_neg (show ¬k = key by intro hk; exact h1 (by rw [h2, hk])), add_zero]
      · rw [if_neg h2, if_neg h2, ih k]

theorem lookupGroup_foldl_congr :
    ∀ (rows : List Row) (g1 g2 : List ((String × String) × ℚ)),
      (∀ k, lookupGroup g1 k = lookupGroup g2 k) →
      ∀ k, lookupGroup (rows.foldl groupsStep g1) k =
        lookupGroup (rows.foldl groupsStep g2) k := by
  intro rows
  induction rows with
  | nil => intro g1 g2 h k; exact h k
  | cons r rest ih =>
    intro g1 g2 h k
    simp only [List.foldl_cons]
    refine ih _ _ ?_ k
    intro k'
    show lookupGroup (bumpGroup (keyOf r) (amountOf r) g1) k' =
      lookupGroup (bumpGroup (keyOf r) (amountOf r) g2) k'
    rw [lookupGroup_bumpGroup, lookupGroup_bumpGroup, h k']

theorem lookupGroup_foldl_sum :
    ∀ (rows : List Row) (g : List ((String × String) × ℚ)) (k : String × String),
      lookupGroup (rows.foldl groupsStep g) k =
        lookupGroup g k +
          ((rows.filter (fun r => decide (keyOf r = k))).map amountOf).sum := by
  intro rows
  induction rows with
  | nil => intro g k; simp
  | cons r rest ih =>
    intro g k
    simp only [List.foldl_cons]
    rw [ih]
    show lookupGroup (bumpGroup (keyOf r) (amountOf r) g) k + _ = _
    rw [lookupGroup_bumpGroup]
    by_cases hk : keyOf r = k
    · rw [if_pos hk.symm, List.filter_cons_of_pos (by simpa using hk)]
      simp only [List.map_cons, List.sum_cons]
      ring
    · rw [if_neg (fun h => hk h.symm), List.filter_cons_of_neg (by simpa using hk)]
      ring

/-- Claim C4: a record whose sale-amount string does not parse as a
number after stripping commas contributes exactly `0` to its
`(branch, product)` group's running total in `group_data_for_zhanbao`:
every group total with the record folded in equals the total without
it.  The `except ValueError` branch makes the fold total (no exception
propagates); `parseFloat ... = none` is exactly that branch. -/
theorem claim_C4 (pre post : List Row) (badRow : Row)
    (h : parseFloat (amountStrOf badRow) = none) (k : String × String) :
    lookupGroup (groupsOf (pre ++ badRow :: post)) k =
      lookupGroup (groupsOf (pre ++ post)) k := by
  unfold groupsOf
  rw [List.foldl_append, List.foldl_append, List.foldl_cons]
  apply lookupGroup_foldl_congr
  intro k'
  show lookupGroup (bumpGroup (keyOf badRow) (amountOf badRow) _) k' = _
  rw [lookupGroup_bumpGroup]
  have ha : amountOf badRow = 0 := by simp [amountOf, h]
  rw [ha]
  simp

/-- Claim C4, witness: the malformed sale amount `"abc"`. -/
theorem claim_C4_witness :
    parseFloat (amountStrOf [("销售额", "abc")]) = none ∧
    lookupGroup (groupsOf ([] ++ [("销售额", "abc")] :: [])) ("", "") =
      lookupGroup (groupsOf ([] ++ [])) ("", "") :=
  ⟨by decide, claim_C4 [] [] [("销售额", "abc")] (by decide) ("", "")⟩

/-- Claim C5: when every record's sale-amount string parses (after
comma removal), each group total of `group_data_for_zhanbao` equals
the exact sum of the parsed amounts of exactly the records sharing
that `(branch, product)` key, and each record's contribution
`amountOf` is its parsed amount. -/
theorem claim_C5 (rows : List Row)
    (h : ∀ r ∈ rows, (parseFloat (amountStrOf r)).isSome = true)
    (k : String × String) :
    lookupGroup (groupsOf rows) k =
      ((rows.filter (fun r => decide (keyOf r = k))).map amountOf).sum ∧
    ∀ r ∈ rows, parseFloat (amountStrOf r) = some (amountOf r) := by
  constructor
  · have hsum := lookupGroup_foldl_sum rows [] k
    simpa [groupsOf, lookupGroup_nil] using hsum
  · intro r hr
    obtain ⟨q, hq⟩ := Option.isSome_iff_exists.mp (h r hr)
    rw [hq]
    simp [amountOf, hq]

/-- Records used by the C5 witness. -/
def c5Rows : List Row :=
  [[("分行名称", "A"), ("基金产品名称", "F"), ("销售额", "5")],
   [("分行名称", "A"), ("基金产品名称", "F"), ("销售额", "7")],
   [("分行名称", "B"), ("基金产品名称", "F"), ("销售额", "2")]]

/-- Claim C5, witness: three well-formed records, two sharing the key
`("A", "F")`. -/
theorem claim_C5_witness :
    (∀ r ∈ c5Rows, (parseFloat (amountStrOf r)).isSome = true) ∧
    (lookupGroup (groupsOf c5Rows) ("A", "F") =
      ((c5Rows.filter (fun r => decide (keyOf r = ("A", "F")))).map amountOf).sum ∧
     ∀ r ∈ c5Rows, parseFloat (amountStrOf r) = some (amountOf r)) :=
  ⟨by decide, claim_C5 c5Rows (by decide) ("A", "F")⟩

/-- Claim C7 (amended): the running total of a `(branch, product)`
group is monotonically non-decreasing as records are folded in,
provided every record's contributed amount (its parsed sale amount,
`0` on parse failure) is non-negative. -/
theorem claim_C7 (rows : List Row) (i : ℕ) (k : String × String)
    (h : ∀ r ∈ rows, 0 ≤ amountOf r) :
    lookupGroup (groupsOf (rows.take i)) k ≤
      lookupGroup (groupsOf (rows.take (i + 1))) k := by
  by_cases hi : i < rows.length
  · rw [List.take_succ]
    have hx : rows[i]? = some rows[i] := List.getElem?_eq_getElem hi
    rw [hx]
    unfold groupsOf
    rw [List.foldl_append]
    show _ ≤ lookupGroup
      (List.foldl groupsStep (List.foldl groupsStep [] (rows.take i)) [rows[i]]) k
    simp only [List.foldl_cons, List.foldl_nil]
    show _ ≤ lookupGroup
      (bumpGroup (keyOf rows[i]) (amountOf rows[i])
        (List.foldl groupsStep [] (rows.take i))) k
    rw [lookupGroup_bumpGroup]
    have h0 : 0 ≤ amountOf rows[i] := h _ (List.getElem_mem hi)
    have hnn : 0 ≤ (if k = keyOf rows[i] then amountOf rows[i] else 0) := by
      split
      · exact h0
      · exact le_refl 0
    exact le_add_of_nonneg_right hnn
  · rw [List.take_of_length_le (by omega), List.take_of_length_le (by omega)]

/-- Records used by the C7 counterexample: a negative sale amount. -/
def c7CexRows : List Row :=
  [[("分行名称", "A"), ("基金产品名称", "F"), ("销售额", "5")],
   [("分行名称", "A"), ("基金产品名称", "F"), ("销售额", "-3")]]

/-- Claim C7, counterexample to the claim as stated: with records of
amounts `"5"` then `"-3"` for the same `("A", "F")` key, the group's
running total drops from `5` to `2` when the second record is folded
in, so it is not monotonically non-decreasing. -/
theorem claim_C7_counterexample :
    lookupGroup (groupsOf (c7CexRows.take 2)) ("A", "F") <
      lookupGroup (groupsOf (c7CexRows.take 1)) ("A", "F") := by
  have h2 : lookupGroup (groupsOf (c7CexRows.take 2)) ("A", "F") =
      ((5 : ℕ) : ℚ) + -((3 : ℕ) : ℚ) := rfl
  have h1 : lookupGroup (groupsOf (c7CexRows.take 1)) ("A", "F") =
      ((5 : ℕ) : ℚ) := rfl
  rw [h1, h2]
  norm_num

/-- Records used by the C7 witness: non-negative amounts only. -/
def c7WitRows : List Row :=
  [[("分行名称", "A"), ("基金产品名称", "F"), ("销售额", "5")],
   [("分行名称", "A"), ("基金产品名称", "F"), ("销售额", "3")]]

/-- Claim C7, witness: with non-negative amounts the running total of
`("A", "F")` does not decrease from step 1 to step 2. -/
theorem claim_C7_witness :
    (∀ r ∈ c7WitRows, 0 ≤ amountOf r) ∧
    lookupGroup (groupsOf (c7WitRows.take 1)) ("A", "F") ≤
      lookupGroup (groupsOf (c7WitRows.take 2)) ("A", "F") :=
  ⟨by
    intro r hr
    simp only [c7WitRows, List.mem_cons, List.not_mem_nil, or_false] at hr
    rcases hr with h | h
    · rw [h, show amountOf [("分行名称", "A"), ("基金产品名称", "F"), ("销售额", "5")] =
        ((5 : ℕ) : ℚ) from rfl]
      exact Nat.cast_nonneg 5
    · rw [h, show amountOf [("分行名称", "A"), ("基金产品名称", "F"), ("销售额", "3")] =
        ((3 : ℕ) : ℚ) from rfl]
      exact Nat.cast_nonneg 3,
   claim_C7 c7WitRows 1 ("A", "F") (by
    intro r hr
    simp only [c7WitRows, List.mem_cons, List.not_mem_nil, or_false] at hr
    rcases hr with h | h
    · rw [h, show amountOf [("分行名称", "A"), ("基金产品名称", "F"), ("销售额", "5")] =
        ((5 : ℕ) : ℚ) from rfl]
      exact Nat.cast_nonneg 5
    · rw [h, show amountOf [("分行名称", "A"), ("基金产品名称", "F"), ("销售额", "3")] =
        ((3 : ℕ) : ℚ) from rfl]
      exact Nat.cast_nonneg 3)⟩

/-- Strip trailing `'0'` characters (the trailing-zero removal of
`%g` formatting). -/
def stripTrailZeros (l : List Char) : List Char :=
  (l.reverse.dropWhile (fun c => c == '0')).reverse

/-- Number of decimal digits of `n` (1 for 0). -/
def natDigCount (n : ℕ) : ℕ := (Nat.toDigits 10 n).length

/-- Round to the nearest integer, ties to even (the rounding used by
`%g` float formatting). -/
def roundHalfEven (q : ℚ) : ℤ :=
  let f : ℤ := Int.floor q
  let r : ℚ := q - (f : ℚ)
  if r < 1 / 2 then f
  else if 1 / 2 < r then f + 1
  else if f % 2 = 0 then f else f + 1

/-- Least `k ≥ 1` with `a * 10 ^ k ≥ 1`, for `0 < a < 1` (fuel is a
digit-count bound on the denominator, always sufficient). -/
def negExpAux : ℕ → ℚ → ℕ
  | 0, _ => 1
  | fuel + 1, a => if 1 ≤ a * 10 then 1 else 1 + negExpAux fuel (a * 10)

/-- Decimal exponent of `a > 0`: the `e : ℤ` with
`10 ^ e ≤ a < 10 ^ (e + 1)`. -/
def qExp10 (a : ℚ) : ℤ :=
  if 1 ≤ a then (natDigCount (Int.floor a).toNat : ℤ) - 1
  else -(negExpAux (natDigCount a.den + 2) a : ℤ)

/-- Pad a decimal exponent to at least two digits, as `%g` does. -/
def pad2 (s : String) : String := if s.length < 2 then "0" ++ s else s

/-- The six significant digits of `a > 0` and its decimal exponent:
returns `(m, e)` with `100000 ≤ m < 1000000` and `a ≈ m * 10 ^ (e - 5)`
(carrying into the next exponent when rounding overflows). -/
def sixDigitsAndExp (a : ℚ) : ℕ × ℤ :=
  let e := qExp10 a
  let m := (roundHalfEven (a * (10 : ℚ) ^ ((5 : ℤ) - e))).toNat
  if m = 1000000 then (100000, e + 1) else (m, e)

/-- Fixed-point rendering of `%g` (used when `-4 ≤ e < 6`): `digs` are
the six significant digits, the value is `digs * 10 ^ (e - 5)`. -/
def fmtFixed (digs : List Char) (e : ℤ) : String :=
  if 0 ≤ e then
    let ipLen := e.toNat + 1
    let ipart := digs.take ipLen
    let fpart := stripTrailZeros (digs.drop ipLen)
    String.mk ipart ++ (if fpart.isEmpty then "" else "." ++ String.mk fpart)
  else
    let zeros := List.replicate ((-e).toNat - 1) '0'
    let fpart := stripTrailZeros (zeros ++ digs)
    "0." ++ String.mk fpart

/-- Scientific rendering of `%g` (used when `e < -4` or `6 ≤ e`). -/
def fmtSci (digs : List Char) (e : ℤ) : String :=
  let head := digs.take 1
  let tail := stripTrailZeros (digs.drop 1)
  let mant := String.mk head ++ (if tail.isEmpty then "" else "." ++ String.mk tail)
  let esign := if e < 0 then "-" else "+"
  mant ++ "e" ++ esign ++ pad2 (toString e.natAbs)

/-- Python `f"\x7btotal:g\x7d"` with the machine float idealised as a
rational: general format with 6 significant digits, trailing zeros
stripped, scientific notation outside `[1e-4, 1e6)`. -/
def formatG (q : ℚ) : String :=
  if q = 0 then "0"
  else
    let a := |q|
    let me := sixDigitsAndExp a
    let digs := Nat.toDigits 10 me.1
    let core := if -4 ≤ me.2 ∧ me.2 < 6 then fmtFixed digs me.2 else fmtSci digs me.2
    (if q < 0 then "-" else "") ++ core

/-- One output row of `group_data_for_zhanbao`: the dict
`\x7b"分行名称": branch, "基金名称": fund, "销售总额": total_str\x7d`. -/
structure ZEntry where
  branch : String
  fund : String
  totalStr : String
deriving DecidableEq

/-- The `result` list of `group_data_for_zhanbao` before sorting: one
entry per group in key insertion (encounter) order, the total
formatted as `f"\x7btotal:g\x7d万"`. -/
def zhanbao_entries (rows : List Row) : List ZEntry :=
  (groupsOf rows).map (fun kt => ⟨kt.1.1, kt.1.2, formatG kt.2 ++ "万"⟩)

/-- The sort key of `group_data_for_zhanbao`:
`float(x["销售总额"].replace("万", "").replace(",", ""))`.  On entries
produced by the program the parse always succeeds; the `getD 0` default
is unreachable there. -/
def sortKeyQ (e : ZEntry) : ℚ :=
  (parseFloat (strReplaceAll (strReplaceAll e.totalStr "万" "") "," "")).getD 0

/-- Python `list.sort(key=k, reverse=True)` is a stable descending
sort; insertion placing each earlier element before the later elements
of equal key reproduces it exactly. -/
def insertDesc {α : Type} (key : α → ℚ) (x : α) : List α → List α
  | [] => [x]
  | y :: ys => if key x < key y then y :: insertDesc key x ys else x :: y :: ys

/-- Stable descending insertion sort (extensionally equal to Python's
stable `list.sort` with `reverse=True`). -/
def sortDesc {α : Type} (key : α → ℚ) : List α → List α
  | [] => []
  | x :: xs => insertDesc key x (sortDesc key xs)

/-- `group_data_for_zhanbao(rows)`: group, format, then sort descending
by the re-parsed total. -/
def group_data_for_zhanbao (rows : List Row) : List ZEntry :=
  sortDesc sortKeyQ (zhanbao_entries rows)

theorem mem_insertDesc {α : Type} (key : α → ℚ) (x z : α) :
    ∀ l : List α, z ∈ insertDesc key x l ↔ z = x ∨ z ∈ l := by
  intro l
  induction l with
  | nil => simp [insertDesc]
  | cons y ys ih =>
    simp only [insertDesc]
    split
    · simp only [List.mem_cons, ih]
      tauto
    · simp only [List.mem_cons]

theorem insertDesc_pairwise {α : Type} (key : α → ℚ) (x : α) :
    ∀ l : List α, l.Pairwise (fun a b => key b ≤ key a) →
      (insertDesc key x l).Pairwise (fun a b => key b ≤ key a) := by
  intro l
  induction l with
  | nil => intro _; simp [insertDesc]
  | cons y ys ih =>
    intro h
    rw [List.pairwise_cons] at h
    obtain ⟨hy, hys⟩ := h
    simp only [insertDesc]
    split
    · rename_i hlt
      rw [List.pairwise_cons]
      constructor
      · intro z hz
        rcases (mem_insertDesc key x z ys).mp hz with hzx | hzy
        · rw [hzx]; exact le_of_lt hlt
        · exact hy z hzy
      · exact ih hys
    · rename_i hnlt
      rw [List.pairwise_cons]
      constructor
      · intro z hz
        rcases List.mem_cons.mp hz with hzy | hzys
        · rw [hzy]; exact not_lt.mp hnlt
        · exact le_trans (hy z hzys) (not_lt.mp hnlt)
      · rw [List.pairwise_cons]
        exact ⟨hy, hys⟩

theorem sortDesc_pairwise {α : Type} (key : α → ℚ) :
    ∀ l : List α, (sortDesc key l).Pairwise (fun a b => key b ≤ key a) := by
  intro l
  induction l with
  | nil => simp [sortDesc]
  | cons x xs ih => exact insertDesc_pairwise key x (sortDesc key xs) ih

theorem insertDesc_filter_keyEq {α : Type} (key : α → ℚ) (x : α) :
    ∀ l : List α,
      (insertDesc key x l).filter (fun a => decide (key a = key x)) =
        x :: l.filter (fun a => decide (key a = key x)) := by
  intro l
  induction l with
  | nil => simp [insertDesc]
  | cons y ys ih =>
    simp only [insertDesc]
    split
    · rename_i hlt
      have hy : ¬(key y = key x) := by
        intro h; rw [h] at hlt; exact lt_irrefl _ hlt
      rw [List.filter_cons_of_neg (by simpa using hy), ih,
        List.filter_cons_of_neg (by simpa using hy)]
    · rw [List.filter_cons_of_pos (by simp)]

theorem insertDesc_filter_keyNe {α : Type} (key : α → ℚ) (x : α) (q : ℚ)
    (hq : ¬(key x = q)) :
    ∀ l : List α,
      (insertDesc key x l).filter (fun a => decide (key a = q)) =
        l.filter (fun a => decide (key a = q)) := by
  intro l
  induction l with
  | nil => simp [insertDesc, hq]
  | cons y ys ih =>
    simp only [insertDesc]
    split
    · by_cases hy : key y = q
      · rw [List.filter_cons_of_pos (by simpa using hy), ih,
          List.filter_cons_of_pos (by simpa using hy)]
      · rw [List.filter_cons_of_neg (by simpa using hy), ih,
          List.filter_cons_of_neg (by simpa using hy)]
    · rw [List.filter_cons_of_neg (by simpa using hq)]

theorem sortDesc_filter {α : Type} (key : α → ℚ) (q : ℚ) :
    ∀ l : List α,
      (sortDesc key l).filter (fun a => decide (key a = q)) =
        l.filter (fun a => decide (key a = q)) := by
  intro l
  induction l with
  | nil => rfl
  | cons x xs ih =>
    simp only [sortDesc]
    by_cases hq : key x = q
    · rw [← hq] at ih ⊢
      rw [insertDesc_filter_keyEq, ih, List.filter_cons_of_pos (by simp)]
    · rw [insertDesc_filter_keyNe key x q hq, ih,
        List.filter_cons_of_neg (by simpa using hq)]

/-- Claim C6: the list returned by `group_data_for_zhanbao` is sorted
in descending order of the numeric value obtained by stripping the
`"万"` suffix from each formatted total and re-parsing it, and the
entries holding any given re-parsed value appear exactly as in the
pre-sort (encounter-order) list — ties keep grouping order, i.e. the
sort is stable. -/
theorem claim_C6 (rows : List Row) :
    (group_data_for_zhanbao rows).Pairwise (fun a b => sortKeyQ b ≤ sortKeyQ a) ∧
    ∀ q : ℚ,
      (group_data_for_zhanbao rows).filter (fun e => decide (sortKeyQ e = q)) =
        (zhanbao_entries rows).filter (fun e => decide (sortKeyQ e = q)) := by
  constructor
  · exact sortDesc_pairwise sortKeyQ (zhanbao_entries rows)
  · intro q
    exact sortDesc_filter sortKeyQ q (zhanbao_entries rows)

/-- One pptx shape as read by `detect_template_type`: the text of its
text frame when `shape.has_text_frame`, and its table cell texts in
row-major order when `shape.shape_type == 19`. -/
structure Shape where
  textFrame : Option String
  table : Option (List (List String))

/-- One slide: its list of shapes. -/
abbrev Slide := List Shape

/-- The contribution of one shape to `text_content`: the text-frame
text first, then every table cell's text in row-major order, exactly
the append order of `detect_template_type`. -/
def shape_text (sh : Shape) : String :=
  sh.textFrame.getD "" ++ String.join ((sh.table.getD []).map String.join)

/-- The `text_content` accumulator of `detect_template_type`: all text
and table content of all slides, concatenated. -/
def text_content (prs : List Slide) : String :=
  String.join (prs.map (fun sl => String.join (sl.map shape_text)))

/-- The template role of a slide. -/
inductive TemplateType
  | INDIVIDUAL
  | SUMMARY
  | STATIC
deriving DecidableEq

/-- `detect_template_type(prs)`: scan the concatenated text for the
per-record tokens (分行名称 / 客户经理名称 / 基金名称 in braces); if one
is present, return SUMMARY when the 数据开始日期 token is also present
and INDIVIDUAL otherwise; else return SUMMARY when 数据开始日期 or
销售总额 is present; else STATIC. -/
def detect_template_type (prs : List Slide) : TemplateType :=
  let t := text_content prs
  if strContains t "\x7b\x7b分行名称\x7d\x7d" || strContains t "\x7b\x7b客户经理名称\x7d\x7d"
      || strContains t "\x7b\x7b基金名称\x7d\x7d" then
    if strContains t "\x7b\x7b数据开始日期\x7d\x7d" then TemplateType.SUMMARY
    else TemplateType.INDIVIDUAL
  else if strContains t "\x7b\x7b数据开始日期\x7d\x7d" || strContains t "\x7b\x7b销售总额\x7d\x7d" then
    TemplateType.SUMMARY
  else TemplateType.STATIC

/-- A one-slide template bearing a per-record token and the
`销售总额` summary token but not the `数据开始日期` token. -/
def c1CexPrs : List Slide :=
  [[{ textFrame := some "\x7b\x7b分行名称\x7d\x7d\x7b\x7b销售总额\x7d\x7d", table := none }]]

/-- A one-slide template bearing a per-record token and the
`数据开始日期` summary token (the latter inside a table cell). -/
def c1WitPrs : List Slide :=
  [[{ textFrame := some "\x7b\x7b分行名称\x7d\x7d", table := none },
    { textFrame := none, table := some [["\x7b\x7b数据开始日期\x7d\x7d"]] }]]

/-- Claim C1, counterexample to the claim as stated: a slide whose
text contains both the per-record token `分行名称` and the summary
token `销售总额` (but no `数据开始日期`) classifies as INDIVIDUAL, not
SUMMARY. -/
theorem claim_C1_counterexample :
    strContains (text_content c1CexPrs) "\x7b\x7b分行名称\x7d\x7d" = true ∧
    strContains (text_content c1CexPrs) "\x7b\x7b销售总额\x7d\x7d" = true ∧
    detect_template_type c1CexPrs = TemplateType.INDIVIDUAL ∧
    detect_template_type c1CexPrs ≠ TemplateType.SUMMARY := by
  decide

/-- Claim C1 (amended): for a template slide whose concatenated text
and table content contains a per-record token, SUMMARY takes precedence
exactly when the summary-date token `数据开始日期` is also present; with
a per-record token but without the date token the slide classifies as
INDIVIDUAL even if the other summary token `销售总额` is present. -/
theorem claim_C1 (prs : List Slide)
    (hper : strContains (text_content prs) "\x7b\x7b分行名称\x7d\x7d" = true ∨
      strContains (text_content prs) "\x7b\x7b客户经理名称\x7d\x7d" = true ∨
      strContains (text_content prs) "\x7b\x7b基金名称\x7d\x7d" = true) :
    (strContains (text_content prs) "\x7b\x7b数据开始日期\x7d\x7d" = true →
      detect_template_type prs = TemplateType.SUMMARY) ∧
    (strContains (text_content prs) "\x7b\x7b数据开始日期\x7d\x7d" = false →
      detect_template_type prs = TemplateType.INDIVIDUAL) := by
  have hor : (strContains (text_content prs) "\x7b\x7b分行名称\x7d\x7d" ||
      strContains (text_content prs) "\x7b\x7b客户经理名称\x7d\x7d" ||
      strContains (text_content prs) "\x7b\x7b基金名称\x7d\x7d") = true := by
    rcases hper with h | h | h <;> simp [h]
  constructor <;> intro hd <;> simp [detect_template_type, hor, hd]

/-- Claim C1, witness: a slide with the per-record token `分行名称` and
the summary-date token `数据开始日期` classifies as SUMMARY. -/
theorem claim_C1_witness :
    detect_template_type c1WitPrs = TemplateType.SUMMARY :=
  (claim_C1 c1WitPrs (Or.inl (by decide))).1 (by decide)

/-- The `FIELD_MAP` constant: placeholder token to data column. -/
def FIELD_MAP : List (String × String) :=
  [("\x7b\x7b分行名称\x7d\x7d", "分行名称"),
   ("\x7b\x7b客户经理名称\x7d\x7d", "客户经理名称"),
   ("\x7b\x7b销售额\x7d\x7d", "销售额"),
   ("\x7b\x7b基金名称\x7d\x7d", "基金产品名称")]

/-- The dict comprehension `\x7bph: row[col] for ...\x7d` over a field
list: build each pair in order, aborting with `none` at the first
missing column (the `KeyError`). -/
def buildPairs (row : Row) : List (String × String) → Option (List (String × String))
  | [] => some []
  | pc :: rest =>
    match rowLookup row pc.2 with
    | none => none
    | some v =>
      match buildPairs row rest with
      | none => none
      | some bs => some ((pc.1, v) :: bs)

/-- The replacement map built per record when filling an INDIVIDUAL
slide: `\x7bph: row[col] for ph, col in FIELD_MAP.items()\x7d` in
`process_individual_template` / `generate_xibao`.  The direct
indexing `row[col]` raises `KeyError` on a missing column, modelled by
`none`. -/
def build_replacements (row : Row) : Option (List (String × String)) :=
  buildPairs row FIELD_MAP

theorem buildPairs_none (row : Row) :
    ∀ l : List (String × String), (∃ pc ∈ l, rowLookup row pc.2 = none) →
      buildPairs row l = none := by
  intro l
  induction l with
  | nil =>
    rintro ⟨pc, hmem, _⟩
    simp at hmem
  | cons a rest ih =>
    rintro ⟨pc, hmem, hnone⟩
    rcases List.mem_cons.mp hmem with h | h
    · simp only [buildPairs, ← h, hnone]
    · by_cases ha : rowLookup row a.2 = none
      · simp only [buildPairs, ha]
      · obtain ⟨v, hv⟩ := Option.ne_none_iff_exists'.mp ha
        have hrest := ih ⟨pc, h, hnone⟩
        simp only [buildPairs, hv, hrest]

/-- Claim C3 (amended): for every input row lacking one of the
required columns (分行名称, 客户经理名称, 销售额, 基金产品名称),
building the INDIVIDUAL replacement map raises a `KeyError` (modelled
by `none`) — the missing field is not replaced by the empty string,
and filling does not proceed. -/
theorem claim_C3 (row : Row)
    (h : ∃ pc ∈ FIELD_MAP, rowLookup row pc.2 = none) :
    build_replacements row = none :=
  buildPairs_none row FIELD_MAP h

/-- Claim C3, counterexample to the claim as stated: on a row with no
columns at all, the replacement map is not the all-empty-string map —
the construction fails (a `KeyError`) instead of substituting `""`. -/
theorem claim_C3_counterexample :
    build_replacements [] = none ∧
    build_replacements [] ≠ some (FIELD_MAP.map (fun pc => (pc.1, ""))) := by
  decide

/-- Claim C3, witness: a row having only the 分行名称 column. -/
theorem claim_C3_witness :
    (∃ pc ∈ FIELD_MAP, rowLookup [("分行名称", "北京分行")] pc.2 = none) ∧
    build_replacements [("分行名称", "北京分行")] = none :=
  ⟨⟨("\x7b\x7b客户经理名称\x7d\x7d", "客户经理名称"), by decide, by decide⟩,
    claim_C3 [("分行名称", "北京分行")]
      ⟨("\x7b\x7b客户经理名称\x7d\x7d", "客户经理名称"), by decide, by decide⟩⟩

/-- Split a character list on a separator character (every occurrence;
`n` separators give `n + 1` parts). -/
def splitChar (sep : Char) : List Char → List (List Char)
  | [] => [[]]
  | c :: rest =>
    let r := splitChar sep rest
    if c == sep then [] :: r
    else
      match r with
      | [] => [[c]]
      | p :: ps => (c :: p) :: ps

/-- Gregorian leap year, as used by Python `datetime`. -/
def isLeap (y : ℕ) : Bool := (y % 4 == 0 && !(y % 100 == 0)) || y % 400 == 0

/-- Days in a month, as validated by Python `datetime`. -/
def daysInMonth (y m : ℕ) : ℕ :=
  if m == 2 then (if isLeap y then 29 else 28)
  else if m == 4 || m == 6 || m == 9 || m == 11 then 30
  else 31

/-- All characters are ASCII decimal digits. -/
def allDigits (l : List Char) : Bool := l.all Char.isDigit

/-- `datetime.strptime(s, "%Y<sep>%m<sep>%d")`: exactly three parts
separated by `sep`; a 4-digit year (at least 1, per `datetime.MINYEAR`),
a 1-2 digit month in 1..12, a 1-2 digit day valid for that month —
`none` models the `ValueError` on any mismatch. -/
def parseYMDWith (sep : Char) (s : List Char) : Option (ℕ × ℕ × ℕ) :=
  match splitChar sep s with
  | [ys, ms, ds] =>
    let y := digitsVal ys
    let m := digitsVal ms
    let d := digitsVal ds
    if allDigits ys && ys.length == 4 && decide (1 ≤ y)
        && allDigits ms && !ms.isEmpty && decide (ms.length ≤ 2)
        && decide (1 ≤ m) && decide (m ≤ 12)
        && allDigits ds && !ds.isEmpty && decide (ds.length ≤ 2)
        && decide (1 ≤ d) && decide (d ≤ daysInMonth y m)
    then some (y, m, d) else none
  | _ => none

/-- The format strings tried by `get_date_range`, in source order (the
last two reduce to the first two after `fmt.split()[0]`). -/
def date_formats : List String :=
  ["%Y/%m/%d", "%Y-%m-%d", "%Y.%m.%d", "%Y/%m/%d %H:%M:%S", "%Y-%m-%d %H:%M:%S"]

/-- Python `s.split()[0]`: the first whitespace-delimited token. -/
def firstToken (s : List Char) : List Char :=
  (s.dropWhile isWs).takeWhile (fun c => !isWs c)

/-- The date separator of a format string: the character after `%Y` in
`fmt.split()[0]` (`'/'`, `'-'` or `'.'`). -/
def sepOfFmt (fmt : String) : Char := ((firstToken fmt.data).drop 2).headD ' '

/-- Try each format in order on `date_str.split()[0]`; the first
successful parse wins (`break` in the source). -/
def try_formats (s : List Char) : Option (ℕ × ℕ × ℕ) :=
  date_formats.findSome? (fun fmt => parseYMDWith (sepOfFmt fmt) s)

/-- The parsed date of one record: strip the 数据日期 value, skip it if
empty, otherwise try the formats on its first token; `none` when no
format parses (the record is ignored). -/
def rowDate (row : Row) : Option (ℕ × ℕ × ℕ) :=
  let ds := stripWs (rowGet row "数据日期" "").data
  if ds.isEmpty then none else try_formats (firstToken ds)

/-- Order-preserving encoding of a calendar date (month ≤ 12 < 100 and
day ≤ 31 < 100, so the lexicographic `datetime` order is preserved). -/
def encDate (d : ℕ × ℕ × ℕ) : ℕ := d.1 * 10000 + d.2.1 * 100 + d.2.2

/-- Python `min` step on dates (keeps the earlier element on ties). -/
def dateMin (a b : ℕ × ℕ × ℕ) : ℕ × ℕ × ℕ := if encDate b < encDate a then b else a

/-- Python `max` step on dates (keeps the earlier element on ties). -/
def dateMax (a b : ℕ × ℕ × ℕ) : ℕ × ℕ × ℕ := if encDate a < encDate b then b else a

/-- `f"\x7bdt.month\x7d.\x7bdt.day\x7d"`. -/
def fmtMD (d : ℕ × ℕ × ℕ) : String := toString d.2.1 ++ "." ++ toString d.2.2

/-- `get_date_range(rows)`: the minimum and maximum parsed dates of the
数据日期 column formatted as `month.day`, and `("", "")` when no record
yields a parseable date. -/
def get_date_range (rows : List Row) : String × String :=
  match rows.filterMap rowDate with
  | [] => ("", "")
  | d :: rest => (fmtMD (rest.foldl dateMin d), fmtMD (rest.foldl dateMax d))

theorem dateMin_le_left (a b : ℕ × ℕ × ℕ) : encDate (dateMin a b) ≤ encDate a := by
  unfold dateMin; split <;> omega

theorem dateMin_le_right (a b : ℕ × ℕ × ℕ) : encDate (dateMin a b) ≤ encDate b := by
  unfold dateMin; split <;> omega

theorem dateMin_mem (a b : ℕ × ℕ × ℕ) : dateMin a b = a ∨ dateMin a b = b := by
  unfold dateMin; split
  · right; rfl
  · left; rfl

theorem dateMax_ge_left (a b : ℕ × ℕ × ℕ) : encDate a ≤ encDate (dateMax a b) := by
  unfold dateMax; split <;> omega

theorem dateMax_ge_right (a b : ℕ × ℕ × ℕ) : encDate b ≤ encDate (dateMax a b) := by
  unfold dateMax; split <;> omega

theorem dateMax_mem (a b : ℕ × ℕ × ℕ) : dateMax a b = a ∨ dateMax a b = b := by
  unfold dateMax; split
  · right; rfl
  · left; rfl

theorem foldl_dateMin_mem : ∀ (rest : List (ℕ × ℕ × ℕ)) (d : ℕ × ℕ × ℕ),
    rest.foldl dateMin d ∈ d :: rest := by
  intro rest
  induction rest with
  | nil => intro d; simp
  | cons r rs ih =>
    intro d
    simp only [List.foldl_cons]
    rcases List.mem_cons.mp (ih (dateMin d r)) with h | h
    · rcases dateMin_mem d r with h2 | h2
      · rw [h, h2]; exact List.mem_cons_self _ _
      · rw [h, h2]; exact List.mem_cons_of_mem _ (List.mem_cons_self _ _)
    · exact List.mem_cons_of_mem _ (List.mem_cons_of_mem _ h)

theorem foldl_dateMin_le : ∀ (rest : List (ℕ × ℕ × ℕ)) (d e : ℕ × ℕ × ℕ),
    e ∈ d :: rest → encDate (rest.foldl dateMin d) ≤ encDate e := by
  intro rest
  induction rest with
  | nil =>
    intro d e he
    rcases List.mem_cons.mp he with h | h
    · subst h; exact le_refl _
    · simp at h
  | cons r rs ih =>
    intro d e he
    simp only [List.foldl_cons]
    rcases List.mem_cons.mp he with h | h
    · rw [h]
      exact le_trans (ih (dateMin d r) _ (List.mem_cons_self _ _)) (dateMin_le_left d r)
    · rcases List.mem_cons.mp h with h2 | h2
      · rw [h2]
        exact le_trans (ih (dateMin d r) _ (List.mem_cons_self _ _)) (dateMin_le_right d r)
      · exact ih (dateMin d r) e (List.mem_cons_of_mem _ h2)

theorem foldl_dateMax_mem : ∀ (rest : List (ℕ × ℕ × ℕ)) (d : ℕ × ℕ × ℕ),
    rest.foldl dateMax d ∈ d :: rest := by
  intro rest
  induction rest with
  | nil => intro d; simp
  | cons r rs ih =>
    intro d
    simp only [List.foldl_cons]
    rcases List.mem_cons.mp (ih (dateMax d r)) with h | h
    · rcases dateMax_mem d r with h2 | h2
      · rw [h, h2]; exact List.mem_cons_self _ _
      · rw [h, h2]; exact List.mem_cons_of_mem _ (List.mem_cons_self _ _)
    · exact List.mem_cons_of_mem _ (List.mem_cons_of_mem _ h)

theorem foldl_dateMax_ge : ∀ (rest : List (ℕ × ℕ × ℕ)) (d e : ℕ × ℕ × ℕ),
    e ∈ d :: rest → encDate e ≤ encDate (rest.foldl dateMax d) := by
  intro rest
  induction rest with
  | nil =>
    intro d e he
    rcases List.mem_cons.mp he with h | h
    · subst h; exact le_refl _
    · simp at h
  | cons r rs ih =>
    intro d e he
    simp only [List.foldl_cons]
    rcases List.mem_cons.mp he with h | h
    · rw [h]
      exact le_trans (dateMax_ge_left d r) (ih (dateMax d r) _ (List.mem_cons_self _ _))
    · rcases List.mem_cons.mp h with h2 | h2
      · rw [h2]
        exact le_trans (dateMax_ge_right d r) (ih (dateMax d r) _ (List.mem_cons_self _ _))
      · exact ih (dateMax d r) e (List.mem_cons_of_mem _ h2)

/-- The example records of the specification: dates `2026/1/2`,
`2026-1-5`, `2026.1.3` in the three supported separators. -/
def c9Rows : List Row :=
  [[("数据日期", "2026/1/2")], [("数据日期", "2026-1-5")], [("数据日期", "2026.1.3")]]

/-- Claim C9: `get_date_range` tries the known date formats in order
per record (first success wins, embodied in `try_formats`), ignores
empty or unparseable values, and returns the minimum and maximum parsed
dates as `month.day` strings: on the spec's example it returns
`("1.2", "1.5")`; it returns `("", "")` when no record parses; and in
general the two reported dates are a least and a greatest parsed date. -/
theorem claim_C9 :
    get_date_range c9Rows = ("1.2", "1.5") ∧
    (∀ rows : List Row, (∀ r ∈ rows, rowDate r = none) →
      get_date_range rows = ("", "")) ∧
    (∀ rows : List Row, rows.filterMap rowDate ≠ [] →
      ∃ mn mx, mn ∈ rows.filterMap rowDate ∧ mx ∈ rows.filterMap rowDate ∧
        (∀ e ∈ rows.filterMap rowDate,
          encDate mn ≤ encDate e ∧ encDate e ≤ encDate mx) ∧
        get_date_range rows = (fmtMD mn, fmtMD mx)) := by
  refine ⟨by decide, ?_, ?_⟩
  · intro rows h
    have hnil : rows.filterMap rowDate = [] := List.filterMap_eq_nil_iff.mpr h
    simp [get_date_range, hnil]
  · intro rows h
    cases hd : rows.filterMap rowDate with
    | nil => exact absurd hd h
    | cons d rest =>
      refine ⟨rest.foldl dateMin d, rest.foldl dateMax d, ?_, ?_, ?_, ?_⟩
      · exact foldl_dateMin_mem rest d
      · exact foldl_dateMax_mem rest d
      · intro e he
        exact ⟨foldl_dateMin_le rest d e he, foldl_dateMax_ge rest d e he⟩
      · simp [get_date_range, hd]

/-- Claim C9, witness: the empty-result case at a concrete unparseable
record, and the spec example, both by direct application. -/
theorem claim_C9_witness :
    get_date_range [[("数据日期", "garbage")]] = ("", "") ∧
    get_date_range c9Rows = ("1.2", "1.5") :=
  ⟨claim_C9.2.1 [[("数据日期", "garbage")]] (by decide), claim_C9.1⟩

end Xb
